import Mathlib

/-!
Shallow embedding of the apoptotic gene-list pipeline
(workflow steps 02_homology_mapping, 03_gene_consolidation,
04_id_annotation, 05_source_breakdown) together with theorems
about the classification, aggregation, ordering, deduplication
and breakdown behaviour of the code.

Python sets of source labels / symbols are modelled as `Finset String`;
Python dicts with insertion order (`defaultdict`) are modelled as
association lists (`List (String × Profile)`) where a first access to an
absent key appends a fresh entry at the end, exactly as `defaultdict`
does.  Iteration over a Python `set` has an unspecified order, so the
per-source gene collections are passed to the aggregation as `List
String` in an arbitrary order; the determinism theorem shows the final
table does not depend on those orders.
-/

namespace Apoptotic

/-- Python's string comparison: lexicographic on Unicode code points.
(Written as a Boolean recursion so concrete comparisons evaluate inside
the kernel.) -/
def charListLe : List Char → List Char → Bool
  | [], _ => true
  | _ :: _, [] => false
  | a :: as, b :: bs =>
      if a < b then true else if a = b then charListLe as bs else false

/-- `a <= b` for Python strings, on the underlying character lists. -/
def strLe (a b : String) : Prop := charListLe a.data b.data = true

instance : DecidableRel strLe := fun a b => by unfold strLe; infer_instance

theorem charListLe_cons (a b : Char) (as bs : List Char) :
    charListLe (a :: as) (b :: bs) =
      if a < b then true else if a = b then charListLe as bs else false := rfl

theorem charListLe_total : ∀ as bs, charListLe as bs = true ∨ charListLe bs as = true := by
  intro as
  induction as with
  | nil => intro bs; exact Or.inl rfl
  | cons a as ih =>
    intro bs
    cases bs with
    | nil => exact Or.inr rfl
    | cons b bs =>
      rw [charListLe_cons, charListLe_cons]
      rcases lt_trichotomy a b with h | h | h
      · left; rw [if_pos h]
      · subst h
        rw [if_neg (lt_irrefl a), if_pos rfl, if_neg (lt_irrefl a), if_pos rfl]
        exact ih bs
      · right; rw [if_pos h]

theorem charListLe_trans : ∀ as bs cs, charListLe as bs = true →
    charListLe bs cs = true → charListLe as cs = true := by
  intro as
  induction as with
  | nil => intro bs cs _ _; rfl
  | cons a as ih =>
    intro bs cs h₁ h₂
    cases bs with
    | nil => exact absurd h₁ (by rw [charListLe]; exact Bool.false_ne_true)
    | cons b bs =>
      cases cs with
      | nil => exact absurd h₂ (by rw [charListLe]; exact Bool.false_ne_true)
      | cons c cs =>
        rw [charListLe_cons] at h₁ h₂ ⊢
        by_cases hab : a < b
        · by_cases hbc : b < c
          · rw [if_pos (lt_trans hab hbc)]
          · by_cases hbc' : b = c
            · subst hbc'; rw [if_pos hab]
            · rw [if_neg hbc, if_neg hbc'] at h₂
              exact absurd h₂ Bool.false_ne_true
        · by_cases hab' : a = b
          · subst hab'
            rw [if_neg hab, if_pos rfl] at h₁
            by_cases hac : a < c
            · rw [if_pos hac]
            · by_cases hac' : a = c
              · subst hac'
                rw [if_neg hac, if_pos rfl] at h₂ ⊢
                exact ih bs cs h₁ h₂
              · rw [if_neg hac, if_neg hac'] at h₂
                exact absurd h₂ Bool.false_ne_true
          · rw [if_neg hab, if_neg hab'] at h₁
            exact absurd h₁ Bool.false_ne_true

theorem charListLe_antisymm : ∀ as bs, charListLe as bs = true →
    charListLe bs as = true → as = bs := by
  intro as
  induction as with
  | nil =>
    intro bs _ h₂
    cases bs with
    | nil => rfl
    | cons b bs => exact absurd h₂ (by rw [charListLe]; exact Bool.false_ne_true)
  | cons a as ih =>
    intro bs h₁ h₂
    cases bs with
    | nil => exact absurd h₁ (by rw [charListLe]; exact Bool.false_ne_true)
    | cons b bs =>
      rw [charListLe_cons] at h₁ h₂
      by_cases hab : a < b
      · rw [if_neg (lt_asymm hab), if_neg (ne_of_gt hab)] at h₂
        exact absurd h₂ Bool.false_ne_true
      · by_cases hab' : a = b
        · subst hab'
          rw [if_neg hab, if_pos rfl] at h₁ h₂
          rw [ih bs h₁ h₂]
        · rw [if_neg hab, if_neg hab'] at h₁
          exact absurd h₁ Bool.false_ne_true

instance : IsTotal String strLe := ⟨fun a b => charListLe_total a.data b.data⟩

instance : IsTrans String strLe :=
  ⟨fun a b c h₁ h₂ => charListLe_trans a.data b.data c.data h₁ h₂⟩

instance : IsAntisymm String strLe := by
  constructor
  intro a b h₁ h₂
  cases a; cases b
  exact congrArg String.mk (charListLe_antisymm _ _ h₁ h₂)

/-- The per-gene evidence record built by `consolidate_genes`
(`03_gene_consolidation.py`, lines 117–122): three evidence-source sets
and the set of associated mouse symbols. -/
structure Profile where
  pro_evidence : Finset String
  anti_evidence : Finset String
  general_evidence : Finset String
  mouse_symbols : Finset String
  deriving DecidableEq

/-- The value `defaultdict` creates on first access (lines 117–122). -/
def emptyProfile : Profile := ⟨∅, ∅, ∅, ∅⟩

/-- The evidence accumulator `gene_evidence`: a Python dict keyed by
human symbol, in insertion order. -/
abbrev GeneEvidence := List (String × Profile)

/-- Model of `gene_evidence[g] ... mutation`: modify the entry for `g`
in place if present, otherwise append a fresh entry (defaultdict
semantics). -/
def updateAt (g : String) (f : Profile → Profile) : GeneEvidence → GeneEvidence
  | [] => [(g, f emptyProfile)]
  | (k, p) :: rest =>
      if k = g then (k, f p) :: rest else (k, p) :: updateAt g f rest

/-- The bidirectional orthology lookup returned by
`load_orthology_mapping` (lines 45–77): `h2m` human → list of mouse
symbols (empty list = absent key), `m2h` mouse → human. -/
structure Orthology where
  h2m : String → List String
  m2h : String → Option String

/-- `load_orthology_mapping` (lines 58–77): one pass over the ortholog
pair rows `(human_symbol, mouse_symbol)`; `h2m` appends, `m2h`
overwrites. -/
def load_orthology_mapping (pairs : List (String × String)) : Orthology :=
  pairs.foldl
    (fun orth pr =>
      { h2m := fun h => if h = pr.1 then orth.h2m h ++ [pr.2] else orth.h2m h
        m2h := fun m => if m = pr.2 then some pr.1 else orth.m2h m })
    ⟨fun _ => [], fun _ => none⟩

/-- `gene_evidence[g]['pro_evidence'].add(src)` plus
`mouse_symbols.update(ms)` for a human-side record (lines 130–133). -/
def addProEvidence (src : String) (ms : Finset String) (p : Profile) : Profile :=
  { p with pro_evidence := insert src p.pro_evidence
           mouse_symbols := p.mouse_symbols ∪ ms }

/-- Anti-apoptotic analogue of `addProEvidence` (lines 139–142). -/
def addAntiEvidence (src : String) (ms : Finset String) (p : Profile) : Profile :=
  { p with anti_evidence := insert src p.anti_evidence
           mouse_symbols := p.mouse_symbols ∪ ms }

/-- General-evidence analogue (lines 176–180). -/
def addGeneralEvidence (src : String) (ms : Finset String) (p : Profile) : Profile :=
  { p with general_evidence := insert src p.general_evidence
           mouse_symbols := p.mouse_symbols ∪ ms }

/-- One record-filing step: `upd` says which profile key to touch and
how (`none` = the record is dropped, as for an unmapped mouse gene). -/
def stepUpd (upd : String → Option (String × (Profile → Profile)))
    (st : GeneEvidence) (x : String) : GeneEvidence :=
  match upd x with
  | none => st
  | some (g, f) => updateAt g f st

/-- Filing a human GO pro-apoptotic gene (lines 129–133). -/
def updHumanPro (orth : Orthology) (g : String) :
    Option (String × (Profile → Profile)) :=
  some (g, addProEvidence "GO_Pro_Human" (orth.h2m g).toFinset)

/-- Filing a human GO anti-apoptotic gene (lines 138–142). -/
def updHumanAnti (orth : Orthology) (g : String) :
    Option (String × (Profile → Profile)) :=
  some (g, addAntiEvidence "GO_Anti_Human" (orth.h2m g).toFinset)

/-- Filing a mouse GO pro-apoptotic gene (lines 149–159): projected
through `m2h`; an unmapped gene contributes nothing. -/
def updMousePro (orth : Orthology) (m : String) :
    Option (String × (Profile → Profile)) :=
  (orth.m2h m).map (fun h => (h, addProEvidence "GO_Pro_Mouse" {m}))

/-- Filing a mouse GO anti-apoptotic gene (lines 165–170). -/
def updMouseAnti (orth : Orthology) (m : String) :
    Option (String × (Profile → Profile)) :=
  (orth.m2h m).map (fun h => (h, addAntiEvidence "GO_Anti_Mouse" {m}))

/-- Filing a gene of a general (human) source: KEGG, Reactome or
Hallmark (lines 174–181). -/
def updGeneral (orth : Orthology) (src : String) (g : String) :
    Option (String × (Profile → Profile)) :=
  some (g, addGeneralEvidence src (orth.h2m g).toFinset)

/-- The seven gene collections of `SOURCE_FILES`, each as a list of
symbols in the (arbitrary) iteration order of the corresponding Python
set. -/
structure Sources where
  GO_Pro_Human : List String
  GO_Anti_Human : List String
  GO_Pro_Mouse : List String
  GO_Anti_Mouse : List String
  KEGG : List String
  Reactome : List String
  Hallmark : List String

/-- The evidence-accumulation phase of `consolidate_genes`
(lines 116–181): the seven per-source loops run in program order. -/
def gene_evidence_map (orth : Orthology) (s : Sources) : GeneEvidence :=
  let st := s.GO_Pro_Human.foldl (stepUpd (updHumanPro orth)) []
  let st := s.GO_Anti_Human.foldl (stepUpd (updHumanAnti orth)) st
  let st := s.GO_Pro_Mouse.foldl (stepUpd (updMousePro orth)) st
  let st := s.GO_Anti_Mouse.foldl (stepUpd (updMouseAnti orth)) st
  let st := s.KEGG.foldl (stepUpd (updGeneral orth "KEGG")) st
  let st := s.Reactome.foldl (stepUpd (updGeneral orth "Reactome")) st
  s.Hallmark.foldl (stepUpd (updGeneral orth "Hallmark")) st

/-- The category branch of `consolidate_genes` (lines 194–209),
including the defensive `"Unknown"` arm. -/
def categoryOf (p : Profile) : String :=
  if 0 < p.pro_evidence.card ∧ 0 < p.anti_evidence.card then "Ambiguous"
  else if 0 < p.pro_evidence.card then "Pro-apoptotic"
  else if 0 < p.anti_evidence.card then "Anti-apoptotic"
  else if 0 < p.general_evidence.card then "Unspecified"
  else "Unknown"

/-- One row of the consolidated table (lines 227–233). -/
structure Entry where
  human_symbol : String
  mouse_symbol : String
  category : String
  sources : String
  evidence_score : Nat
  deriving DecidableEq

/-- Python's `sorted(...)` on a set of strings: the ascending sorted
list of the elements of a `Finset String` (well-defined because two
permutations of the same elements have the same insertion sort). -/
def sortAsc (s : Finset String) : List String :=
  Quotient.liftOn s.val (fun l => List.insertionSort strLe l)
    (fun _ _ h =>
      List.eq_of_perm_of_sorted
        ((List.perm_insertionSort _ _).trans
          (h.trans (List.perm_insertionSort _ _).symm))
        (List.sorted_insertionSort _ _) (List.sorted_insertionSort _ _))

/-- Building one consolidated row from a profile (lines 194–233):
`all_sources` is the union of the three evidence sets, the mouse
symbols and sources are sorted and comma-joined, `evidence_score` is
the number of distinct sources. -/
def mkEntry (g : String) (p : Profile) : Entry :=
  let all_sources := p.pro_evidence ∪ p.anti_evidence ∪ p.general_evidence
  { human_symbol := g
    mouse_symbol := String.intercalate "," (sortAsc p.mouse_symbols)
    category := categoryOf p
    sources := String.intercalate "," (sortAsc all_sources)
    evidence_score := all_sources.card }

/-- `consolidated_data` (lines 188–233): one row per accumulated gene,
in dict insertion order. -/
def consolidated_data (orth : Orthology) (s : Sources) : List Entry :=
  (gene_evidence_map orth s).map (fun kp => mkEntry kp.1 kp.2)

/-- The sort relation of line 237:
`sort_values(['evidence_score', 'human_symbol'], ascending=[False, True])`
— descending score, ties by ascending raw (case-sensitive) symbol. -/
def tableOrder (e₁ e₂ : Entry) : Prop :=
  e₂.evidence_score < e₁.evidence_score ∨
    (e₁.evidence_score = e₂.evidence_score ∧ strLe e₁.human_symbol e₂.human_symbol)

instance : DecidableRel tableOrder := fun e₁ e₂ => by
  unfold tableOrder; infer_instance

instance : IsTotal Entry tableOrder := by
  constructor
  intro a b
  rcases Nat.lt_trichotomy a.evidence_score b.evidence_score with h | h | h
  · exact Or.inr (Or.inl h)
  · rcases total_of strLe a.human_symbol b.human_symbol with h' | h'
    · exact Or.inl (Or.inr ⟨h, h'⟩)
    · exact Or.inr (Or.inr ⟨h.symm, h'⟩)
  · exact Or.inl (Or.inl h)

instance : IsTrans Entry tableOrder := by
  constructor
  rintro a b c (hab | ⟨hab, hab'⟩) (hbc | ⟨hbc, hbc'⟩)
  · exact Or.inl (lt_trans hbc hab)
  · exact Or.inl (hbc ▸ hab)
  · exact Or.inl (hab ▸ hbc)
  · exact Or.inr ⟨hab.trans hbc, trans_of strLe hab' hbc'⟩

/-- `consolidate_genes` (lines 96–242): accumulate, build rows, sort.
The pandas sort key `(evidence_score desc, human_symbol asc)` is unique
per row (symbols are dict keys), so any correct sorting algorithm
produces the same list; we use insertion sort. -/
def consolidate_genes (orth : Orthology) (s : Sources) : List Entry :=
  List.insertionSort tableOrder (consolidated_data orth s)


/-! ### Observations of the evidence accumulator -/

/-- `g in gene_evidence` / `gene_evidence[g]` as a read-only lookup. -/
def lookupKey (g : String) : GeneEvidence → Option Profile
  | [] => none
  | (k, p) :: rest => if k = g then some p else lookupKey g rest

/-- The dict keys, in insertion order. -/
def keysOf (st : GeneEvidence) : List String := st.map Prod.fst

/-- The dict keys as a set. -/
def keySet (st : GeneEvidence) : Finset String := (keysOf st).toFinset

theorem lookupKey_updateAt_self (g : String) (f : Profile → Profile) :
    ∀ st : GeneEvidence,
      lookupKey g (updateAt g f st) =
        some (f ((lookupKey g st).getD emptyProfile)) := by
  intro st
  induction st with
  | nil => simp [updateAt, lookupKey]
  | cons kp rest ih =>
    obtain ⟨k', p⟩ := kp
    by_cases h : k' = g
    · subst h; simp [updateAt, lookupKey]
    · simp [updateAt, lookupKey, h, ih]

theorem lookupKey_updateAt_ne (g : String) (f : Profile → Profile)
    (k : String) (h : ¬ k = g) :
    ∀ st : GeneEvidence, lookupKey k (updateAt g f st) = lookupKey k st := by
  intro st
  have hgk : ¬ g = k := fun h' => h h'.symm
  induction st with
  | nil => simp [updateAt, lookupKey, hgk]
  | cons kp rest ih =>
    obtain ⟨k', p⟩ := kp
    by_cases h' : k' = g
    · subst h'; simp [updateAt, lookupKey, hgk, ih]
    · simp only [updateAt, if_neg h', lookupKey]
      rw [ih]

theorem mem_keysOf_updateAt {g : String} {f : Profile → Profile}
    {st : GeneEvidence} {k : String} :
    k ∈ keysOf (updateAt g f st) ↔ k = g ∨ k ∈ keysOf st := by
  induction st with
  | nil => simp [updateAt, keysOf]
  | cons kp rest ih =>
    obtain ⟨k', p⟩ := kp
    by_cases h : k' = g
    · subst h
      simp [updateAt, keysOf, List.mem_cons]
    · simp only [updateAt, if_neg h, keysOf, List.map_cons, List.mem_cons] at ih ⊢
      tauto

theorem keySet_updateAt (g : String) (f : Profile → Profile)
    (st : GeneEvidence) : keySet (updateAt g f st) = insert g (keySet st) := by
  ext k
  simp only [keySet, List.mem_toFinset, Finset.mem_insert]
  exact mem_keysOf_updateAt

theorem nodup_keysOf_updateAt {g : String} {f : Profile → Profile}
    {st : GeneEvidence} (h : (keysOf st).Nodup) :
    (keysOf (updateAt g f st)).Nodup := by
  induction st with
  | nil => simp [updateAt, keysOf]
  | cons kp rest ih =>
    obtain ⟨k', p⟩ := kp
    simp only [keysOf, List.map_cons, List.nodup_cons] at h
    by_cases hg : k' = g
    · subst hg
      have hrw : updateAt k' f ((k', p) :: rest) = (k', f p) :: rest := by
        simp [updateAt]
      rw [hrw]
      simpa [keysOf, List.nodup_cons] using h
    · simp only [updateAt, if_neg hg, keysOf, List.map_cons, List.nodup_cons]
      refine ⟨fun hmem => ?_, ih h.2⟩
      rcases mem_keysOf_updateAt.mp hmem with h' | h'
      · exact hg h'
      · exact h.1 h'

theorem mem_updateAt {g : String} {f : Profile → Profile} :
    ∀ {st : GeneEvidence} {gp : String × Profile}, gp ∈ updateAt g f st →
      gp ∈ st ∨ ∃ p₀, gp = (g, f p₀) := by
  intro st
  induction st with
  | nil =>
    intro gp h
    simp only [updateAt, List.mem_singleton] at h
    exact Or.inr ⟨emptyProfile, h⟩
  | cons kp rest ih =>
    intro gp h
    obtain ⟨k', p⟩ := kp
    by_cases hg : k' = g
    · subst hg
      simp only [updateAt, if_pos rfl] at h
      rcases List.mem_cons.mp h with h | h
      · exact Or.inr ⟨p, h⟩
      · exact Or.inl (List.mem_cons_of_mem _ h)
    · simp only [updateAt, if_neg hg, List.mem_cons] at h
      rcases h with h | h
      · exact Or.inl (h ▸ List.mem_cons_self _ _)
      · rcases ih h with h' | h'
        · exact Or.inl (List.mem_cons_of_mem _ h')
        · exact Or.inr h'

theorem mem_iff_lookupKey :
    ∀ {st : GeneEvidence}, (keysOf st).Nodup → ∀ (g : String) (p : Profile),
      ((g, p) ∈ st ↔ lookupKey g st = some p) := by
  intro st
  induction st with
  | nil => intro _ g p; simp [lookupKey]
  | cons kp rest ih =>
    intro hnd g p
    obtain ⟨k', p'⟩ := kp
    simp only [keysOf, List.map_cons, List.nodup_cons] at hnd
    by_cases h : k' = g
    · subst h
      rw [lookupKey, if_pos rfl]
      constructor
      · intro hmem
        rcases List.mem_cons.mp hmem with heq | hmem'
        · injection heq with h1 h2
          rw [h2]
        · exact absurd (List.mem_map_of_mem Prod.fst hmem') hnd.1
      · intro hs
        injection hs with h2
        rw [← h2]
        exact List.mem_cons_self _ _
    · simp only [lookupKey, if_neg h, List.mem_cons, Prod.mk.injEq]
      rw [← ih hnd.2 g p]
      constructor
      · rintro (⟨h1, -⟩ | hmem)
        · exact absurd h1.symm h
        · exact hmem
      · exact Or.inr

/-! ### Order-insensitivity of record filing -/

/-- Two accumulator states are observationally equal when they hold the
same profile for every key and the same key set (they may differ in
insertion order). -/
def obsEq (st₁ st₂ : GeneEvidence) : Prop :=
  (∀ g, lookupKey g st₁ = lookupKey g st₂) ∧ keySet st₁ = keySet st₂

theorem obsEq_refl (st : GeneEvidence) : obsEq st st := ⟨fun _ => rfl, rfl⟩

theorem obsEq_trans {st₁ st₂ st₃ : GeneEvidence}
    (h₁ : obsEq st₁ st₂) (h₂ : obsEq st₂ st₃) : obsEq st₁ st₃ :=
  ⟨fun g => (h₁.1 g).trans (h₂.1 g), h₁.2.trans h₂.2⟩

theorem obsEq_updateAt {st₁ st₂ : GeneEvidence} (h : obsEq st₁ st₂)
    (g : String) (f : Profile → Profile) :
    obsEq (updateAt g f st₁) (updateAt g f st₂) := by
  constructor
  · intro k
    by_cases hk : k = g
    · subst hk
      rw [lookupKey_updateAt_self, lookupKey_updateAt_self, h.1 k]
    · rw [lookupKey_updateAt_ne g f k hk, lookupKey_updateAt_ne g f k hk, h.1 k]
  · rw [keySet_updateAt, keySet_updateAt, h.2]

theorem obsEq_stepUpd {st₁ st₂ : GeneEvidence} (h : obsEq st₁ st₂)
    (upd : String → Option (String × (Profile → Profile))) (x : String) :
    obsEq (stepUpd upd st₁ x) (stepUpd upd st₂ x) := by
  unfold stepUpd
  cases upd x with
  | none => exact h
  | some gf => exact obsEq_updateAt h gf.1 gf.2

theorem obsEq_foldl {st₁ st₂ : GeneEvidence} (h : obsEq st₁ st₂)
    (upd : String → Option (String × (Profile → Profile))) :
    ∀ l : List String,
      obsEq (l.foldl (stepUpd upd) st₁) (l.foldl (stepUpd upd) st₂) := by
  intro l
  induction l generalizing st₁ st₂ with
  | nil => exact h
  | cons x xs ih =>
    simp only [List.foldl_cons]
    exact ih (obsEq_stepUpd h upd x)

/-- The filing functions produced by one source commute when they
target the same profile. -/
def UpdCommutes (upd : String → Option (String × (Profile → Profile))) : Prop :=
  ∀ x₁ x₂ g f₁ f₂, upd x₁ = some (g, f₁) → upd x₂ = some (g, f₂) →
    ∀ p, f₁ (f₂ p) = f₂ (f₁ p)

theorem obsEq_updateAt_swap (g₁ g₂ : String) (f₁ f₂ : Profile → Profile)
    (hc : g₁ = g₂ → ∀ p, f₁ (f₂ p) = f₂ (f₁ p)) (st : GeneEvidence) :
    obsEq (updateAt g₂ f₂ (updateAt g₁ f₁ st))
      (updateAt g₁ f₁ (updateAt g₂ f₂ st)) := by
  constructor
  · intro k
    by_cases h₁₂ : g₁ = g₂
    · subst h₁₂
      by_cases hk : k = g₁
      · subst hk
        rw [lookupKey_updateAt_self, lookupKey_updateAt_self,
          lookupKey_updateAt_self, lookupKey_updateAt_self]
        simp only [Option.getD_some]
        rw [hc rfl]
      · rw [lookupKey_updateAt_ne _ _ _ hk, lookupKey_updateAt_ne _ _ _ hk,
          lookupKey_updateAt_ne _ _ _ hk, lookupKey_updateAt_ne _ _ _ hk]
    · by_cases hk₁ : k = g₁
      · subst hk₁
        have hk₂ : ¬ k = g₂ := h₁₂
        rw [lookupKey_updateAt_ne _ _ _ hk₂, lookupKey_updateAt_self,
          lookupKey_updateAt_self, lookupKey_updateAt_ne _ _ _ hk₂]
      · by_cases hk₂ : k = g₂
        · subst hk₂
          have hk₁' : ¬ k = g₁ := fun h => h₁₂ h.symm
          rw [lookupKey_updateAt_self, lookupKey_updateAt_ne _ _ _ hk₁',
            lookupKey_updateAt_ne _ _ _ hk₁', lookupKey_updateAt_self]
        · rw [lookupKey_updateAt_ne _ _ _ hk₂, lookupKey_updateAt_ne _ _ _ hk₁,
            lookupKey_updateAt_ne _ _ _ hk₁, lookupKey_updateAt_ne _ _ _ hk₂]
  · rw [keySet_updateAt, keySet_updateAt, keySet_updateAt, keySet_updateAt]
    exact Finset.Insert.comm g₂ g₁ (keySet st)

theorem obsEq_stepUpd_swap {upd : String → Option (String × (Profile → Profile))}
    (hc : UpdCommutes upd) (st : GeneEvidence) (x₁ x₂ : String) :
    obsEq (stepUpd upd (stepUpd upd st x₁) x₂)
      (stepUpd upd (stepUpd upd st x₂) x₁) := by
  unfold stepUpd
  cases h₁ : upd x₁ with
  | none => cases h₂ : upd x₂ with
    | none => exact obsEq_refl _
    | some gf₂ => exact obsEq_refl _
  | some gf₁ => cases h₂ : upd x₂ with
    | none => exact obsEq_refl _
    | some gf₂ =>
      obtain ⟨g₁, f₁⟩ := gf₁
      obtain ⟨g₂, f₂⟩ := gf₂
      exact obsEq_updateAt_swap g₁ g₂ f₁ f₂
        (fun hg p => (hc x₂ x₁ g₁ f₂ f₁ (hg ▸ h₂) h₁ p).symm) st

theorem obsEq_foldl_perm {upd : String → Option (String × (Profile → Profile))}
    (hc : UpdCommutes upd) {l₁ l₂ : List String} (hp : l₁.Perm l₂) :
    ∀ st : GeneEvidence,
      obsEq (l₁.foldl (stepUpd upd) st) (l₂.foldl (stepUpd upd) st) := by
  induction hp with
  | nil => exact fun st => obsEq_refl _
  | cons x _ ih =>
    intro st
    simp only [List.foldl_cons]
    exact ih (stepUpd upd st x)
  | swap x y l =>
    intro st
    simp only [List.foldl_cons]
    exact obsEq_foldl (obsEq_stepUpd_swap hc st y x) upd l
  | trans _ _ ih₁ ih₂ =>
    intro st
    exact obsEq_trans (ih₁ st) (ih₂ st)

theorem nodup_keysOf_stepUpd
    (upd : String → Option (String × (Profile → Profile)))
    {st : GeneEvidence} (h : (keysOf st).Nodup) (x : String) :
    (keysOf (stepUpd upd st x)).Nodup := by
  unfold stepUpd
  cases upd x with
  | none => exact h
  | some gf => exact nodup_keysOf_updateAt h

theorem nodup_keysOf_foldl
    (upd : String → Option (String × (Profile → Profile))) :
    ∀ (l : List String) {st : GeneEvidence}, (keysOf st).Nodup →
      (keysOf (l.foldl (stepUpd upd) st)).Nodup := by
  intro l
  induction l with
  | nil => exact fun h => h
  | cons x xs ih =>
    intro st h
    simp only [List.foldl_cons]
    exact ih (nodup_keysOf_stepUpd upd h x)

theorem addProEvidence_comm (src : String) (A B : Finset String) (p : Profile) :
    addProEvidence src A (addProEvidence src B p) =
      addProEvidence src B (addProEvidence src A p) := by
  simp only [addProEvidence]
  exact congrArg _ (Finset.union_right_comm _ _ _)

theorem addAntiEvidence_comm (src : String) (A B : Finset String) (p : Profile) :
    addAntiEvidence src A (addAntiEvidence src B p) =
      addAntiEvidence src B (addAntiEvidence src A p) := by
  simp only [addAntiEvidence]
  exact congrArg _ (Finset.union_right_comm _ _ _)

theorem updCommutes_humanPro (orth : Orthology) :
    UpdCommutes (updHumanPro orth) := by
  intro x₁ x₂ g f₁ f₂ h₁ h₂ p
  simp only [updHumanPro, Option.some.injEq, Prod.mk.injEq] at h₁ h₂
  rw [← h₁.2, ← h₂.2, h₁.1, h₂.1]

theorem updCommutes_humanAnti (orth : Orthology) :
    UpdCommutes (updHumanAnti orth) := by
  intro x₁ x₂ g f₁ f₂ h₁ h₂ p
  simp only [updHumanAnti, Option.some.injEq, Prod.mk.injEq] at h₁ h₂
  rw [← h₁.2, ← h₂.2, h₁.1, h₂.1]

theorem updCommutes_general (orth : Orthology) (src : String) :
    UpdCommutes (updGeneral orth src) := by
  intro x₁ x₂ g f₁ f₂ h₁ h₂ p
  simp only [updGeneral, Option.some.injEq, Prod.mk.injEq] at h₁ h₂
  rw [← h₁.2, ← h₂.2, h₁.1, h₂.1]

theorem updCommutes_mousePro (orth : Orthology) :
    UpdCommutes (updMousePro orth) := by
  intro x₁ x₂ g f₁ f₂ h₁ h₂ p
  simp only [updMousePro, Option.map_eq_some', Prod.mk.injEq] at h₁ h₂
  obtain ⟨a₁, -, -, hf₁⟩ := h₁
  obtain ⟨a₂, -, -, hf₂⟩ := h₂
  rw [← hf₁, ← hf₂]
  exact addProEvidence_comm _ _ _ p

theorem updCommutes_mouseAnti (orth : Orthology) :
    UpdCommutes (updMouseAnti orth) := by
  intro x₁ x₂ g f₁ f₂ h₁ h₂ p
  simp only [updMouseAnti, Option.map_eq_some', Prod.mk.injEq] at h₁ h₂
  obtain ⟨a₁, -, -, hf₁⟩ := h₁
  obtain ⟨a₂, -, -, hf₂⟩ := h₂
  rw [← hf₁, ← hf₂]
  exact addAntiEvidence_comm _ _ _ p

theorem obsEq_foldl_both {upd : String → Option (String × (Profile → Profile))}
    (hc : UpdCommutes upd) {l₁ l₂ : List String} {st₁ st₂ : GeneEvidence}
    (hp : l₁.Perm l₂) (hst : obsEq st₁ st₂) :
    obsEq (l₁.foldl (stepUpd upd) st₁) (l₂.foldl (stepUpd upd) st₂) :=
  obsEq_trans (obsEq_foldl hst upd l₁) (obsEq_foldl_perm hc hp st₂)

theorem obsEq_gene_evidence_map (orth : Orthology) (s₁ s₂ : Sources)
    (hPH : s₁.GO_Pro_Human.Perm s₂.GO_Pro_Human)
    (hAH : s₁.GO_Anti_Human.Perm s₂.GO_Anti_Human)
    (hPM : s₁.GO_Pro_Mouse.Perm s₂.GO_Pro_Mouse)
    (hAM : s₁.GO_Anti_Mouse.Perm s₂.GO_Anti_Mouse)
    (hK : s₁.KEGG.Perm s₂.KEGG)
    (hR : s₁.Reactome.Perm s₂.Reactome)
    (hH : s₁.Hallmark.Perm s₂.Hallmark) :
    obsEq (gene_evidence_map orth s₁) (gene_evidence_map orth s₂) := by
  unfold gene_evidence_map
  exact obsEq_foldl_both (updCommutes_general orth "Hallmark") hH
    (obsEq_foldl_both (updCommutes_general orth "Reactome") hR
      (obsEq_foldl_both (updCommutes_general orth "KEGG") hK
        (obsEq_foldl_both (updCommutes_mouseAnti orth) hAM
          (obsEq_foldl_both (updCommutes_mousePro orth) hPM
            (obsEq_foldl_both (updCommutes_humanAnti orth) hAH
              (obsEq_foldl_both (updCommutes_humanPro orth) hPH
                (obsEq_refl [])))))))

theorem nodup_keysOf_gene_evidence_map (orth : Orthology) (s : Sources) :
    (keysOf (gene_evidence_map orth s)).Nodup := by
  unfold gene_evidence_map
  exact nodup_keysOf_foldl _ _ (nodup_keysOf_foldl _ _ (nodup_keysOf_foldl _ _
    (nodup_keysOf_foldl _ _ (nodup_keysOf_foldl _ _ (nodup_keysOf_foldl _ _
      (nodup_keysOf_foldl _ _ (List.nodup_nil)))))))

/-! ### The all-evidence-empty state is unreachable -/

/-- The union of the three evidence sets of a profile
(`all_sources`, lines 212–215). -/
def unionSources (p : Profile) : Finset String :=
  p.pro_evidence ∪ p.anti_evidence ∪ p.general_evidence

/-- A filing family that always leaves at least one evidence label in
the profile it touches. -/
def GoodUpd (upd : String → Option (String × (Profile → Profile))) : Prop :=
  ∀ x g f, upd x = some (g, f) → ∀ p, 0 < (unionSources (f p)).card

theorem goodUpd_foldl {upd : String → Option (String × (Profile → Profile))}
    (hg : GoodUpd upd) :
    ∀ (l : List String) {st : GeneEvidence},
      (∀ gp ∈ st, 0 < (unionSources gp.2).card) →
      ∀ gp ∈ l.foldl (stepUpd upd) st, 0 < (unionSources gp.2).card := by
  intro l
  induction l with
  | nil => exact fun h => h
  | cons x xs ih =>
    intro st hst
    simp only [List.foldl_cons]
    refine ih ?_
    intro gp hgp
    unfold stepUpd at hgp
    rcases hupd : upd x with - | gf
    · rw [hupd] at hgp; exact hst gp hgp
    · rw [hupd] at hgp
      rcases mem_updateAt hgp with h | ⟨p₀, hp₀⟩
      · exact hst gp h
      · rw [hp₀]
        exact hg x gf.1 gf.2 hupd p₀

theorem goodUpd_humanPro (orth : Orthology) : GoodUpd (updHumanPro orth) := by
  intro x g f h p
  simp only [updHumanPro, Option.some.injEq, Prod.mk.injEq] at h
  rw [← h.2]
  refine Finset.card_pos.mpr ⟨"GO_Pro_Human", ?_⟩
  simp [unionSources, addProEvidence]

theorem goodUpd_humanAnti (orth : Orthology) : GoodUpd (updHumanAnti orth) := by
  intro x g f h p
  simp only [updHumanAnti, Option.some.injEq, Prod.mk.injEq] at h
  rw [← h.2]
  refine Finset.card_pos.mpr ⟨"GO_Anti_Human", ?_⟩
  simp [unionSources, addAntiEvidence]

theorem goodUpd_general (orth : Orthology) (src : String) :
    GoodUpd (updGeneral orth src) := by
  intro x g f h p
  simp only [updGeneral, Option.some.injEq, Prod.mk.injEq] at h
  rw [← h.2]
  refine Finset.card_pos.mpr ⟨src, ?_⟩
  simp [unionSources, addGeneralEvidence]

theorem goodUpd_mousePro (orth : Orthology) : GoodUpd (updMousePro orth) := by
  intro x g f h p
  simp only [updMousePro, Option.map_eq_some', Prod.mk.injEq] at h
  obtain ⟨a, -, -, hf⟩ := h
  rw [← hf]
  refine Finset.card_pos.mpr ⟨"GO_Pro_Mouse", ?_⟩
  simp [unionSources, addProEvidence]

theorem goodUpd_mouseAnti (orth : Orthology) : GoodUpd (updMouseAnti orth) := by
  intro x g f h p
  simp only [updMouseAnti, Option.map_eq_some', Prod.mk.injEq] at h
  obtain ⟨a, -, -, hf⟩ := h
  rw [← hf]
  refine Finset.card_pos.mpr ⟨"GO_Anti_Mouse", ?_⟩
  simp [unionSources, addAntiEvidence]

theorem gene_evidence_map_invariant (orth : Orthology) (s : Sources) :
    ∀ gp ∈ gene_evidence_map orth s, 0 < (unionSources gp.2).card := by
  unfold gene_evidence_map
  exact goodUpd_foldl (goodUpd_general orth "Hallmark") _
    (goodUpd_foldl (goodUpd_general orth "Reactome") _
      (goodUpd_foldl (goodUpd_general orth "KEGG") _
        (goodUpd_foldl (goodUpd_mouseAnti orth) _
          (goodUpd_foldl (goodUpd_mousePro orth) _
            (goodUpd_foldl (goodUpd_humanAnti orth) _
              (goodUpd_foldl (goodUpd_humanPro orth) _
                (by intro gp h; cases h)))))))

theorem perm_of_obsEq {m₁ m₂ : GeneEvidence} (h : obsEq m₁ m₂)
    (h₁ : (keysOf m₁).Nodup) (h₂ : (keysOf m₂).Nodup) : m₁.Perm m₂ := by
  refine (List.perm_ext_iff_of_nodup (h₁.of_map) (h₂.of_map)).mpr ?_
  rintro ⟨g, p⟩
  rw [mem_iff_lookupKey h₁ g p, mem_iff_lookupKey h₂ g p, h.1 g]

theorem eq_of_perm_sorted_table : ∀ {l₁ l₂ : List Entry}, l₁.Perm l₂ →
    List.Sorted tableOrder l₁ → List.Sorted tableOrder l₂ →
    (l₁.map Entry.human_symbol).Nodup → l₁ = l₂ := by
  intro l₁
  induction l₁ with
  | nil =>
    intro l₂ hp _ _ _
    exact hp.nil_eq
  | cons a t ih =>
    intro l₂ hp hs₁ hs₂ hnd
    cases l₂ with
    | nil => exact absurd hp.symm.nil_eq (by simp)
    | cons b t₂ =>
      have hbmem : b ∈ a :: t := hp.mem_iff.mpr (List.mem_cons_self b t₂)
      have hamem : a ∈ b :: t₂ := hp.mem_iff.mp (List.mem_cons_self a t)
      have hab : a = b := by
        rcases List.mem_cons.mp hbmem with h | h
        · exact h.symm
        rcases List.mem_cons.mp hamem with h' | h'
        · exact h'
        have hr₁ : tableOrder a b := (List.sorted_cons.mp hs₁).1 b h
        have hr₂ : tableOrder b a := (List.sorted_cons.mp hs₂).1 a h'
        have hsym : a.human_symbol = b.human_symbol := by
          rcases hr₁ with hlt | ⟨heq, hle⟩
          · rcases hr₂ with hlt' | ⟨heq', hle'⟩
            · exact absurd hlt' (lt_asymm hlt)
            · exact absurd (heq' ▸ hlt) (lt_irrefl _)
          · rcases hr₂ with hlt' | ⟨heq', hle'⟩
            · exact absurd (heq ▸ hlt') (lt_irrefl _)
            · exact antisymm hle hle'
        exact List.inj_on_of_nodup_map hnd (List.mem_cons_self a t) hbmem hsym
      subst hab
      have htail : t.Perm t₂ := hp.cons_inv
      have hnd' : (t.map Entry.human_symbol).Nodup := by
        simp only [List.map_cons, List.nodup_cons] at hnd
        exact hnd.2
      rw [ih htail (List.sorted_cons.mp hs₁).2 (List.sorted_cons.mp hs₂).2 hnd']

theorem consolidated_data_symbols (orth : Orthology) (s : Sources) :
    (consolidated_data orth s).map Entry.human_symbol =
      keysOf (gene_evidence_map orth s) := by
  unfold consolidated_data keysOf
  rw [List.map_map]
  rfl

/-! ### Step 02: homology mapping (`02_homology_mapping.py`) -/

/-- Python's `str.upper()` (also the spec's "case-normalized to upper
case" sort key), character by character. -/
def strUpper (s : String) : String := ⟨s.data.map Char.toUpper⟩

/-- One row of the ortholog pair table built by
`build_comprehensive_mapping` (`02_homology_mapping.py`,
lines 243–262). -/
structure MappingRecord where
  human_symbol : String
  mouse_symbol : String
  human_entrez : Option Nat
  mouse_entrez : Option Nat
  mapping_source : String
  deriving DecidableEq

/-- The deduplication key of line 272:
`subset=["human_symbol", "mouse_symbol"]`. -/
def recKey (r : MappingRecord) : String × String := (r.human_symbol, r.mouse_symbol)

/-- Phase 4 of `build_comprehensive_mapping` (lines 236–262): the
human→mouse records are emitted first, then the mouse→human records;
identifiers that do not resolve to a symbol are dropped. -/
def build_mapping_records
    (human_to_mouse_ids : List (String × List Nat))
    (mouse_to_human_ids : List (String × List Nat))
    (mouse_id_to_symbol : Nat → Option String)
    (human_id_to_symbol : Nat → Option String) : List MappingRecord :=
  (human_to_mouse_ids.flatMap (fun hm =>
    hm.2.filterMap (fun mid => (mouse_id_to_symbol mid).map
      (fun ms => ⟨strUpper hm.1, ms, none, some mid, "human_to_mouse"⟩))))
  ++ (mouse_to_human_ids.flatMap (fun mh =>
    mh.2.filterMap (fun hid => (human_id_to_symbol hid).map
      (fun hs => ⟨strUpper hs, mh.1, some hid, none, "mouse_to_human"⟩))))

/-- `df.drop_duplicates(subset=["human_symbol","mouse_symbol"],
keep="first")` (line 272), written with an accumulator of already-seen
keys so that it evaluates structurally. -/
def dropDupAux (seen : List (String × String)) :
    List MappingRecord → List MappingRecord
  | [] => []
  | r :: rs =>
      if recKey r ∈ seen then dropDupAux seen rs
      else r :: dropDupAux (recKey r :: seen) rs

/-- Keep-first deduplication on `(human_symbol, mouse_symbol)`. -/
def drop_duplicates (l : List MappingRecord) : List MappingRecord :=
  dropDupAux [] l

/-! ### Step 04: id annotation (`04_id_annotation.py`) -/

/-- One row of the final annotated table (`04_id_annotation.py`,
lines 226–235). -/
structure AnnotatedEntry where
  human_symbol : String
  human_ensembl_id : Option String
  mouse_symbol : String
  mouse_ensembl_id : Option String
  category : String
  sources : String
  evidence_score : Nat
  deriving DecidableEq

/-- Lines 208–235 of `04_id_annotation.py`: per-row map lookups add the
two Ensembl columns (`df['human_symbol'].map(...)`, absent = `none`);
every other column is carried over unchanged. -/
def annotate_entries (df : List Entry)
    (human_ensembl_map mouse_ensembl_map : String → Option String) :
    List AnnotatedEntry :=
  df.map (fun e =>
    ⟨e.human_symbol, human_ensembl_map e.human_symbol,
     e.mouse_symbol, mouse_ensembl_map e.mouse_symbol,
     e.category, e.sources, e.evidence_score⟩)

/-- Forgetting the two added Ensembl columns of an annotated row. -/
def stripAnnot (a : AnnotatedEntry) : Entry :=
  ⟨a.human_symbol, a.mouse_symbol, a.category, a.sources, a.evidence_score⟩

/-! ### Step 05: source breakdown (`05_source_breakdown.py`) -/

/-- `SOURCE_PATTERNS` (lines 26–31): label → substring pattern. -/
def SOURCE_PATTERNS : List (String × String) :=
  [("KEGG", "KEGG"), ("Reactome", "Reactome"),
   ("Hallmark", "Hallmark"), ("GO", "GO_")]

/-- `CATEGORY_ORDER` (line 34). -/
def CATEGORY_ORDER : List String :=
  ["Pro-apoptotic", "Anti-apoptotic", "Ambiguous", "Unspecified"]

/-- `df['sources'].str.contains(pattern)` (line 64): the patterns hold
no regex metacharacters, so this is substring containment. -/
def containsPattern (pattern s : String) : Prop := pattern.data <:+: s.data

instance (pattern s : String) : Decidable (containsPattern pattern s) :=
  List.decidableInfix pattern.data s.data

/-- `filter_by_source` (lines 46–67), over the rows of the final
annotated table. -/
def filter_by_source (df : List AnnotatedEntry) (pattern : String) :
    List AnnotatedEntry :=
  df.filter (fun a => decide (containsPattern pattern a.sources))

/-- `add_category_stats` (lines 70–77): one count per category of
`CATEGORY_ORDER`, plus the total. -/
def add_category_stats (df : List AnnotatedEntry) : List (String × Nat) :=
  CATEGORY_ORDER.map
    (fun c => (c, (df.filter (fun a => decide (a.category = c))).length))
  ++ [("Total", df.length)]

/-- Position of a category in the fixed `CATEGORY_ORDER` (the ordered
categorical of lines 83–87). -/
def catRank (c : String) : Nat := CATEGORY_ORDER.findIdx (fun c' => c' == c)

/-- The sort relation of `sort_by_category` (line 89):
`sort_values(['category', 'human_symbol'])` under the categorical
ordering. -/
def breakdownOrder (a₁ a₂ : AnnotatedEntry) : Prop :=
  catRank a₁.category < catRank a₂.category ∨
    (catRank a₁.category = catRank a₂.category ∧
      strLe a₁.human_symbol a₂.human_symbol)

instance : DecidableRel breakdownOrder := fun a₁ a₂ => by
  unfold breakdownOrder; infer_instance

/-- `sort_by_category` (lines 80–90). -/
def sort_by_category (df : List AnnotatedEntry) : List AnnotatedEntry :=
  List.insertionSort breakdownOrder df


/-! ### Helper facts about the consolidated table -/

theorem general_pos_of_union {p : Profile} (h : 0 < (unionSources p).card)
    (h₁ : ¬ 0 < p.pro_evidence.card) (h₂ : ¬ 0 < p.anti_evidence.card) :
    0 < p.general_evidence.card := by
  by_contra h₃
  have e₁ := Finset.card_eq_zero.mp (Nat.eq_zero_of_not_pos h₁)
  have e₂ := Finset.card_eq_zero.mp (Nat.eq_zero_of_not_pos h₂)
  have e₃ := Finset.card_eq_zero.mp (Nat.eq_zero_of_not_pos h₃)
  rw [unionSources, e₁, e₂, e₃] at h
  simp at h

theorem categoryOf_mem_CATEGORY_ORDER {p : Profile}
    (h : 0 < (unionSources p).card) : categoryOf p ∈ CATEGORY_ORDER := by
  unfold categoryOf
  by_cases h₁ : 0 < p.pro_evidence.card ∧ 0 < p.anti_evidence.card
  · rw [if_pos h₁]; simp [CATEGORY_ORDER]
  · rw [if_neg h₁]
    by_cases h₂ : 0 < p.pro_evidence.card
    · rw [if_pos h₂]; simp [CATEGORY_ORDER]
    · rw [if_neg h₂]
      by_cases h₃ : 0 < p.anti_evidence.card
      · rw [if_pos h₃]; simp [CATEGORY_ORDER]
      · rw [if_neg h₃, if_pos (general_pos_of_union h h₂ h₃)]
        simp [CATEGORY_ORDER]

theorem mem_consolidate_genes {orth : Orthology} {s : Sources} {e : Entry} :
    e ∈ consolidate_genes orth s ↔
      ∃ gp ∈ gene_evidence_map orth s, e = mkEntry gp.1 gp.2 := by
  unfold consolidate_genes
  rw [(List.perm_insertionSort tableOrder _).mem_iff]
  unfold consolidated_data
  rw [List.mem_map]
  constructor
  · rintro ⟨gp, hgp, rfl⟩; exact ⟨gp, hgp, rfl⟩
  · rintro ⟨gp, hgp, rfl⟩; exact ⟨gp, hgp, rfl⟩

theorem mem_table_category {orth : Orthology} {s : Sources} {e : Entry}
    (he : e ∈ consolidate_genes orth s) : e.category ∈ CATEGORY_ORDER := by
  rcases mem_consolidate_genes.mp he with ⟨gp, hgp, rfl⟩
  exact categoryOf_mem_CATEGORY_ORDER (gene_evidence_map_invariant orth s gp hgp)

/-! ### Claim theorems: classification and scoring -/

/-- Claim C1: for every evidence profile with at least one of the three
evidence sets non-empty, classification assigns exactly one category by
first-match precedence: pro and anti both non-empty → Ambiguous; else
pro non-empty → Pro-apoptotic; else anti non-empty → Anti-apoptotic;
else (general non-empty) → Unspecified. -/
theorem classify_first_match (p : Profile) (h : 0 < (unionSources p).card) :
    (0 < p.pro_evidence.card → 0 < p.anti_evidence.card →
        categoryOf p = "Ambiguous") ∧
    (0 < p.pro_evidence.card → ¬ 0 < p.anti_evidence.card →
        categoryOf p = "Pro-apoptotic") ∧
    (¬ 0 < p.pro_evidence.card → 0 < p.anti_evidence.card →
        categoryOf p = "Anti-apoptotic") ∧
    (¬ 0 < p.pro_evidence.card → ¬ 0 < p.anti_evidence.card →
        categoryOf p = "Unspecified") := by
  refine ⟨fun h₁ h₂ => ?_, fun h₁ h₂ => ?_, fun h₁ h₂ => ?_, fun h₁ h₂ => ?_⟩
  · unfold categoryOf; rw [if_pos ⟨h₁, h₂⟩]
  · unfold categoryOf; rw [if_neg (fun hc => h₂ hc.2), if_pos h₁]
  · unfold categoryOf; rw [if_neg (fun hc => h₁ hc.1), if_neg h₁, if_pos h₂]
  · unfold categoryOf
    rw [if_neg (fun hc => h₁ hc.1), if_neg h₁, if_neg h₂,
      if_pos (general_pos_of_union h h₁ h₂)]

/-- Witness for C1 at a concrete profile with both pro and anti
evidence. -/
theorem classify_first_match_witness :
    0 < (unionSources ⟨{"GO_Pro_Human"}, {"GO_Anti_Mouse"}, ∅, ∅⟩).card ∧
    categoryOf ⟨{"GO_Pro_Human"}, {"GO_Anti_Mouse"}, ∅, ∅⟩ = "Ambiguous" :=
  ⟨by decide, (classify_first_match _ (by decide)).1 (by decide) (by decide)⟩

/-- Claim C8: every profile produced by aggregation has at least one of the
three evidence sets non-empty, so the classifier's defensive all-empty
arm is unreachable: every consolidated row carries one of the four spec
categories and never the fallback "Unknown". -/
theorem aggregated_profile_nonempty (orth : Orthology) (s : Sources) :
    (∀ gp ∈ gene_evidence_map orth s, 0 < (unionSources gp.2).card) ∧
    ∀ e ∈ consolidate_genes orth s,
      e.category ∈ CATEGORY_ORDER ∧ e.category ≠ "Unknown" := by
  refine ⟨gene_evidence_map_invariant orth s, fun e he => ?_⟩
  have h := mem_table_category he
  refine ⟨h, fun hu => ?_⟩
  rw [hu] at h
  simp [CATEGORY_ORDER] at h

/-- Witness for C8 at a one-gene input. -/
theorem aggregated_profile_nonempty_witness :
    (⟨"TP53", "", "Pro-apoptotic", "GO_Pro_Human", 1⟩ : Entry) ∈
        consolidate_genes ⟨fun _ => [], fun _ => none⟩
          ⟨["TP53"], [], [], [], [], [], []⟩ ∧
    ((⟨"TP53", "", "Pro-apoptotic", "GO_Pro_Human", 1⟩ : Entry).category ∈
        CATEGORY_ORDER ∧
      (⟨"TP53", "", "Pro-apoptotic", "GO_Pro_Human", 1⟩ : Entry).category ≠
        "Unknown") :=
  ⟨by decide,
    (aggregated_profile_nonempty ⟨fun _ => [], fun _ => none⟩
      ⟨["TP53"], [], [], [], [], [], []⟩).2 _ (by decide)⟩

/-- Claim C2: each consolidated row's evidence_score equals the number of
distinct source labels in the union of its gene's pro, anti and general
evidence sets; because the union is a set, a source that contributed
evidence of more than one polarity is counted exactly once. -/
theorem evidence_score_eq_card_union (orth : Orthology) (s : Sources)
    (e : Entry) (he : e ∈ consolidate_genes orth s) :
    ∃ p, lookupKey e.human_symbol (gene_evidence_map orth s) = some p ∧
      e.evidence_score =
        (p.pro_evidence ∪ p.anti_evidence ∪ p.general_evidence).card := by
  rcases mem_consolidate_genes.mp he with ⟨⟨g, p⟩, hgp, rfl⟩
  exact ⟨p,
    (mem_iff_lookupKey (nodup_keysOf_gene_evidence_map orth s) g p).mp hgp, rfl⟩

/-- Witness for C2 at a one-gene input. -/
theorem evidence_score_eq_card_union_witness :
    (⟨"TP53", "", "Pro-apoptotic", "GO_Pro_Human", 1⟩ : Entry) ∈
        consolidate_genes ⟨fun _ => [], fun _ => none⟩
          ⟨["TP53"], [], [], [], [], [], []⟩ ∧
    ∃ p, lookupKey "TP53"
        (gene_evidence_map ⟨fun _ => [], fun _ => none⟩
          ⟨["TP53"], [], [], [], [], [], []⟩) = some p ∧
      1 = (p.pro_evidence ∪ p.anti_evidence ∪ p.general_evidence).card :=
  ⟨by decide,
    evidence_score_eq_card_union ⟨fun _ => [], fun _ => none⟩
      ⟨["TP53"], [], [], [], [], [], []⟩
      ⟨"TP53", "", "Pro-apoptotic", "GO_Pro_Human", 1⟩ (by decide)⟩


/-! ### Claim theorems: table ordering -/

/-- Modelled from the spec (claim C3 wording): the claimed ordering,
whose tie-break key is the symbol case-normalized to upper case. -/
def specClaimOrder (e₁ e₂ : Entry) : Prop :=
  e₂.evidence_score < e₁.evidence_score ∨
    (e₁.evidence_score = e₂.evidence_score ∧
      strLe (strUpper e₁.human_symbol) (strUpper e₂.human_symbol))

instance : DecidableRel specClaimOrder := fun e₁ e₂ => by
  unfold specClaimOrder; infer_instance

/-- Claim C3 counterexample: with two genes "a" and "B" of equal score, the
code sorts "B" before "a" (raw code-point comparison), while the
claimed upper-cased key would demand "a" before "B"; the produced table
is not sorted by the claimed ordering. -/
theorem sort_key_not_case_normalized :
    ¬ List.Sorted specClaimOrder
        (consolidate_genes ⟨fun _ => [], fun _ => none⟩
          ⟨["a", "B"], [], [], [], [], [], []⟩) ∧
    (consolidate_genes ⟨fun _ => [], fun _ => none⟩
        ⟨["a", "B"], [], [], [], [], [], []⟩).map Entry.human_symbol =
      ["B", "a"] := by
  refine ⟨by decide, by decide⟩

/-- Claim C3 amended: the final table is ordered by descending
evidence_score, ties broken by ascending symbol_A under the raw
case-sensitive code-point comparison (no case normalization of the sort
key); the displayed symbols are exactly the accumulated keys, case
preserved. -/
theorem consolidate_genes_sorted (orth : Orthology) (s : Sources) :
    List.Sorted tableOrder (consolidate_genes orth s) ∧
    ((consolidate_genes orth s).map Entry.human_symbol).Perm
      (keysOf (gene_evidence_map orth s)) := by
  refine ⟨List.sorted_insertionSort tableOrder _, ?_⟩
  have hp := (List.perm_insertionSort tableOrder
    (consolidated_data orth s)).map Entry.human_symbol
  rwa [consolidated_data_symbols orth s] at hp

/-! ### Claim theorems: reverse ortholog index -/

theorem load_orthology_mapping_snoc (l : List (String × String))
    (pr : String × String) :
    load_orthology_mapping (l ++ [pr]) =
      { h2m := fun h => if h = pr.1 then
            (load_orthology_mapping l).h2m h ++ [pr.2]
          else (load_orthology_mapping l).h2m h
        m2h := fun m => if m = pr.2 then some pr.1
          else (load_orthology_mapping l).m2h m } := by
  unfold load_orthology_mapping
  rw [List.foldl_append]
  rfl

/-- Claim C4: the reverse (mouse→human) lookup built by
load_orthology_mapping is single-valued; when several human symbols map
to the same mouse symbol it keeps exactly the one of the last pair
processed, in row order. -/
theorem m2h_last_write_wins (pairs : List (String × String)) (b : String) :
    (load_orthology_mapping pairs).m2h b =
      ((pairs.filter (fun pr => decide (pr.2 = b))).getLast?).map Prod.fst := by
  induction pairs using List.reverseRecOn with
  | nil => rfl
  | append_singleton l pr ih =>
    rw [load_orthology_mapping_snoc, List.filter_append]
    show (if b = pr.2 then some pr.1 else (load_orthology_mapping l).m2h b) = _
    by_cases h : b = pr.2
    · rw [if_pos h]
      have hf : List.filter (fun pr' => decide (pr'.2 = b)) [pr] = [pr] := by
        simp [h.symm]
      rw [hf, List.getLast?_concat]
      rfl
    · rw [if_neg h]
      have hf : List.filter (fun pr' => decide (pr'.2 = b)) [pr] = [] := by
        simp [Ne.symm h]
      rw [hf, List.append_nil]
      exact ih

/-! ### Claim theorems: mouse record projection -/

/-- Claim C5: a mouse record is projected through the reverse index: with no
entry it contributes nothing (and the filing function is total, so no
error is raised); with an entry, the record's source label is filed
under the resolved human symbol with its polarity preserved, the mouse
symbol joins that profile's ortholog set, and every other profile is
untouched. -/
theorem mouse_record_projection (orth : Orthology) (st : GeneEvidence)
    (m : String) :
    (orth.m2h m = none →
      stepUpd (updMousePro orth) st m = st ∧
      stepUpd (updMouseAnti orth) st m = st) ∧
    (∀ h, orth.m2h m = some h →
      (∀ g, lookupKey g (stepUpd (updMousePro orth) st m) =
        if g = h then
          some (addProEvidence "GO_Pro_Mouse" {m}
            ((lookupKey h st).getD emptyProfile))
        else lookupKey g st) ∧
      (∀ g, lookupKey g (stepUpd (updMouseAnti orth) st m) =
        if g = h then
          some (addAntiEvidence "GO_Anti_Mouse" {m}
            ((lookupKey h st).getD emptyProfile))
        else lookupKey g st)) := by
  constructor
  · intro hn
    unfold stepUpd updMousePro updMouseAnti
    rw [hn]
    exact ⟨rfl, rfl⟩
  · intro h hh
    constructor
    · intro g
      unfold stepUpd updMousePro
      rw [hh]
      show lookupKey g (updateAt h (addProEvidence "GO_Pro_Mouse" {m}) st) = _
      by_cases hg : g = h
      · subst hg
        rw [lookupKey_updateAt_self, if_pos rfl]
      · rw [lookupKey_updateAt_ne _ _ _ hg st, if_neg hg]
    · intro g
      unfold stepUpd updMouseAnti
      rw [hh]
      show lookupKey g (updateAt h (addAntiEvidence "GO_Anti_Mouse" {m}) st) = _
      by_cases hg : g = h
      · subst hg
        rw [lookupKey_updateAt_self, if_pos rfl]
      · rw [lookupKey_updateAt_ne _ _ _ hg st, if_neg hg]

/-- Witness for C5: an unmapped mouse gene is dropped; a mapped one is
filed under the resolved human symbol. -/
theorem mouse_record_projection_witness :
    stepUpd (updMousePro
        ⟨fun _ => [], fun m => if m = "Bax" then some "BAX" else none⟩) [] "X" =
      [] ∧
    lookupKey "BAX" (stepUpd (updMousePro
        ⟨fun _ => [], fun m => if m = "Bax" then some "BAX" else none⟩)
        [] "Bax") =
      some (addProEvidence "GO_Pro_Mouse" {"Bax"} emptyProfile) := by
  constructor
  · exact ((mouse_record_projection
      ⟨fun _ => [], fun m => if m = "Bax" then some "BAX" else none⟩
      [] "X").1 (by decide)).1
  · have h := ((mouse_record_projection
      ⟨fun _ => [], fun m => if m = "Bax" then some "BAX" else none⟩
      [] "Bax").2 "BAX" (by decide)).1 "BAX"
    rw [h, if_pos rfl]
    rfl

/-! ### Claim theorems: determinism -/

/-- Claim C7: the consolidated table is independent of the iteration order of
the input gene sets and of the order in which evidence is filed: for
the same orthology index and the same per-source gene sets (given in
any order), the tables are identical. -/
theorem consolidate_genes_deterministic (orth : Orthology) (s₁ s₂ : Sources)
    (hPH : s₁.GO_Pro_Human.Perm s₂.GO_Pro_Human)
    (hAH : s₁.GO_Anti_Human.Perm s₂.GO_Anti_Human)
    (hPM : s₁.GO_Pro_Mouse.Perm s₂.GO_Pro_Mouse)
    (hAM : s₁.GO_Anti_Mouse.Perm s₂.GO_Anti_Mouse)
    (hK : s₁.KEGG.Perm s₂.KEGG)
    (hR : s₁.Reactome.Perm s₂.Reactome)
    (hH : s₁.Hallmark.Perm s₂.Hallmark) :
    consolidate_genes orth s₁ = consolidate_genes orth s₂ := by
  have hobs := obsEq_gene_evidence_map orth s₁ s₂ hPH hAH hPM hAM hK hR hH
  have hnd₁ := nodup_keysOf_gene_evidence_map orth s₁
  have hnd₂ := nodup_keysOf_gene_evidence_map orth s₂
  have hdata : (consolidated_data orth s₁).Perm (consolidated_data orth s₂) :=
    (perm_of_obsEq hobs hnd₁ hnd₂).map _
  have hsp : (consolidate_genes orth s₁).Perm (consolidate_genes orth s₂) :=
    (List.perm_insertionSort tableOrder _).trans
      (hdata.trans (List.perm_insertionSort tableOrder _).symm)
  have hnds : ((consolidate_genes orth s₁).map Entry.human_symbol).Nodup := by
    have hp := (List.perm_insertionSort tableOrder
      (consolidated_data orth s₁)).map Entry.human_symbol
    rw [consolidated_data_symbols orth s₁] at hp
    exact hp.nodup_iff.mpr hnd₁
  exact eq_of_perm_sorted_table hsp (List.sorted_insertionSort _ _)
    (List.sorted_insertionSort _ _) hnds

/-- Witness for C7: two iteration orders of the same human gene set
give the same table. -/
theorem consolidate_genes_deterministic_witness :
    consolidate_genes ⟨fun _ => [], fun _ => none⟩
        ⟨["TP53", "BAX"], [], [], [], [], [], []⟩ =
      consolidate_genes ⟨fun _ => [], fun _ => none⟩
        ⟨["BAX", "TP53"], [], [], [], [], [], []⟩ :=
  consolidate_genes_deterministic ⟨fun _ => [], fun _ => none⟩
    ⟨["TP53", "BAX"], [], [], [], [], [], []⟩
    ⟨["BAX", "TP53"], [], [], [], [], [], []⟩
    (List.Perm.swap "BAX" "TP53" []) (List.Perm.refl _) (List.Perm.refl _)
    (List.Perm.refl _) (List.Perm.refl _) (List.Perm.refl _) (List.Perm.refl _)


/-! ### Claim theorems: pair deduplication -/

theorem dropDupAux_filter_of_seen (k : String × String) :
    ∀ (l : List MappingRecord) (seen : List (String × String)), k ∈ seen →
      (dropDupAux seen l).filter (fun r => decide (recKey r = k)) = [] := by
  intro l
  induction l with
  | nil => intro seen _; rfl
  | cons r rs ih =>
    intro seen hk
    by_cases h : recKey r ∈ seen
    · simp only [dropDupAux, if_pos h]
      exact ih seen hk
    · simp only [dropDupAux, if_neg h]
      rw [List.filter_cons]
      have hne : ¬ recKey r = k := fun he => h (he ▸ hk)
      rw [decide_eq_false hne, if_neg Bool.false_ne_true]
      exact ih (recKey r :: seen) (List.mem_cons_of_mem _ hk)

theorem dropDupAux_filter_first (k : String × String) :
    ∀ (l : List MappingRecord) (seen : List (String × String)), k ∉ seen →
      (dropDupAux seen l).filter (fun r => decide (recKey r = k)) =
        ((l.find? (fun r => decide (recKey r = k))).map
          (fun r₀ => [r₀])).getD [] := by
  intro l
  induction l with
  | nil => intro seen _; rfl
  | cons r rs ih =>
    intro seen hk
    by_cases hkey : recKey r = k
    · have hr : recKey r ∉ seen := hkey ▸ hk
      simp only [dropDupAux, if_neg hr]
      rw [List.filter_cons, decide_eq_true hkey, if_pos rfl]
      rw [List.find?_cons_of_pos _ (by simp [hkey])]
      rw [dropDupAux_filter_of_seen k rs (recKey r :: seen)
        (List.mem_cons.mpr (Or.inl hkey.symm))]
      rfl
    · rw [List.find?_cons_of_neg _ (by simp [hkey])]
      by_cases h : recKey r ∈ seen
      · simp only [dropDupAux, if_pos h]
        exact ih seen hk
      · simp only [dropDupAux, if_neg h]
        rw [List.filter_cons, decide_eq_false hkey, if_neg Bool.false_ne_true]
        refine ih (recKey r :: seen) ?_
        intro hmem
        rcases List.mem_cons.mp hmem with h' | h'
        · exact hkey h'.symm
        · exact hk h'

/-- Claim C6: keep-first deduplication on (human_symbol, mouse_symbol) is
idempotent: for any key present in the record list, the deduplicated
output holds exactly one record with that key — the first-seen one,
which therefore carries the first-seen direction tag. -/
theorem dedup_idempotent_first_seen (l : List MappingRecord)
    (k : String × String) (h : ∃ r ∈ l, recKey r = k) :
    ∃ r₀, l.find? (fun r => decide (recKey r = k)) = some r₀ ∧
      recKey r₀ = k ∧
      (drop_duplicates l).filter (fun r => decide (recKey r = k)) = [r₀] := by
  obtain ⟨r, hr, hk⟩ := h
  have hsome : (l.find? (fun r => decide (recKey r = k))).isSome := by
    rw [List.find?_isSome]
    exact ⟨r, hr, by simp [hk]⟩
  obtain ⟨r₀, hr₀⟩ := Option.isSome_iff_exists.mp hsome
  refine ⟨r₀, hr₀, ?_, ?_⟩
  · simpa using List.find?_some hr₀
  · rw [drop_duplicates, dropDupAux_filter_first k l [] (by simp), hr₀]
    rfl

/-- Witness for C6: the pair (TP53, Trp53) found once per lookup
direction yields exactly one record after dedup, the first-seen
human_to_mouse one. -/
theorem dedup_idempotent_first_seen_witness :
    (∃ r ∈ build_mapping_records [("TP53", [100])] [("Trp53", [200])]
        (fun i => if i = 100 then some "Trp53" else none)
        (fun i => if i = 200 then some "TP53" else none),
      recKey r = ("TP53", "Trp53")) ∧
    (∃ r₀, (build_mapping_records [("TP53", [100])] [("Trp53", [200])]
        (fun i => if i = 100 then some "Trp53" else none)
        (fun i => if i = 200 then some "TP53" else none)).find?
          (fun r => decide (recKey r = ("TP53", "Trp53"))) = some r₀ ∧
      recKey r₀ = ("TP53", "Trp53") ∧
      (drop_duplicates (build_mapping_records [("TP53", [100])]
          [("Trp53", [200])]
          (fun i => if i = 100 then some "Trp53" else none)
          (fun i => if i = 200 then some "TP53" else none))).filter
        (fun r => decide (recKey r = ("TP53", "Trp53"))) = [r₀]) ∧
    (drop_duplicates (build_mapping_records [("TP53", [100])]
        [("Trp53", [200])]
        (fun i => if i = 100 then some "Trp53" else none)
        (fun i => if i = 200 then some "TP53" else none))).map
      MappingRecord.mapping_source = ["human_to_mouse"] :=
  ⟨by decide,
    dedup_idempotent_first_seen _ ("TP53", "Trp53") (by decide),
    by decide⟩

/-! ### Claim theorems: annotation -/

/-- Claim C10: annotation is a pure per-row extension: stripping the two
added Ensembl columns gives back exactly the classified table (same
rows, same order, every shared field identical), and the added columns
are precisely the best-effort map lookups (absent when no mapping was
found). -/
theorem annotate_pure_extension (df : List Entry)
    (human_map mouse_map : String → Option String) :
    (annotate_entries df human_map mouse_map).map stripAnnot = df ∧
    ∀ a ∈ annotate_entries df human_map mouse_map,
      a.human_ensembl_id = human_map a.human_symbol ∧
      a.mouse_ensembl_id = mouse_map a.mouse_symbol := by
  constructor
  · unfold annotate_entries
    rw [List.map_map]
    have hid : (stripAnnot ∘ fun e : Entry =>
        (⟨e.human_symbol, human_map e.human_symbol, e.mouse_symbol,
          mouse_map e.mouse_symbol, e.category, e.sources,
          e.evidence_score⟩ : AnnotatedEntry)) = id := funext fun e => rfl
    rw [hid, List.map_id]
  · intro a ha
    unfold annotate_entries at ha
    rw [List.mem_map] at ha
    obtain ⟨e, -, rfl⟩ := ha
    exact ⟨rfl, rfl⟩

/-- Witness for C10 at a one-row table. -/
theorem annotate_pure_extension_witness :
    (annotate_entries [⟨"TP53", "Trp53", "Pro-apoptotic", "KEGG", 1⟩]
        (fun s => if s = "TP53" then some "ENSG00000141510" else none)
        (fun _ => none)).map stripAnnot =
      [⟨"TP53", "Trp53", "Pro-apoptotic", "KEGG", 1⟩] ∧
    ∀ a ∈ annotate_entries [⟨"TP53", "Trp53", "Pro-apoptotic", "KEGG", 1⟩]
        (fun s => if s = "TP53" then some "ENSG00000141510" else none)
        (fun _ => none),
      a.human_ensembl_id =
        (if a.human_symbol = "TP53" then some "ENSG00000141510" else none) ∧
      a.mouse_ensembl_id = none :=
  annotate_pure_extension [⟨"TP53", "Trp53", "Pro-apoptotic", "KEGG", 1⟩]
    (fun s => if s = "TP53" then some "ENSG00000141510" else none)
    (fun _ => none)


/-! ### Claim theorems: source breakdown -/

theorem four_counts_sum : ∀ l : List AnnotatedEntry,
    (∀ a ∈ l, a.category ∈ CATEGORY_ORDER) →
    (l.filter (fun a => decide (a.category = "Pro-apoptotic"))).length +
      ((l.filter (fun a => decide (a.category = "Anti-apoptotic"))).length +
        ((l.filter (fun a => decide (a.category = "Ambiguous"))).length +
          ((l.filter (fun a => decide (a.category = "Unspecified"))).length +
            0))) = l.length := by
  intro l
  induction l with
  | nil => intro _; rfl
  | cons a t ih =>
    intro h
    have ha := h a (List.mem_cons_self a t)
    have hs := ih (fun x hx => h x (List.mem_cons_of_mem a hx))
    have hfour : a.category = "Pro-apoptotic" ∨ a.category = "Anti-apoptotic" ∨
        a.category = "Ambiguous" ∨ a.category = "Unspecified" := by
      simpa [CATEGORY_ORDER] using ha
    simp only [List.filter_cons, List.length_cons]
    rcases hfour with h₁ | h₁ | h₁ | h₁ <;>
      simp only [h₁, String.reduceEq, decide_True, decide_False, if_true,
        if_false, Bool.false_eq_true, List.length_cons] <;>
      omega

/-- Claim C9: for every configured source label, the sum of the per-category
counts in its breakdown equals the number of rows of the full annotated
table whose sources field contains that label's pattern; and every
breakdown row is literally a row of the full table, so the global
category assignment is never altered. -/
theorem source_breakdown_consistency (orth : Orthology) (s : Sources)
    (human_map mouse_map : String → Option String) (lbl pat : String)
    (_hmem : (lbl, pat) ∈ SOURCE_PATTERNS) :
    (((add_category_stats (sort_by_category (filter_by_source
            (annotate_entries (consolidate_genes orth s) human_map mouse_map)
            pat))).filter
          (fun cn => decide (¬ cn.1 = "Total"))).map Prod.snd).sum =
      (filter_by_source
        (annotate_entries (consolidate_genes orth s) human_map mouse_map)
        pat).length ∧
    ∀ a ∈ sort_by_category (filter_by_source
        (annotate_entries (consolidate_genes orth s) human_map mouse_map) pat),
      a ∈ annotate_entries (consolidate_genes orth s) human_map mouse_map := by
  have hcat : ∀ a ∈ annotate_entries (consolidate_genes orth s)
      human_map mouse_map, a.category ∈ CATEGORY_ORDER := by
    intro a ha
    unfold annotate_entries at ha
    rw [List.mem_map] at ha
    obtain ⟨e, he, rfl⟩ := ha
    exact mem_table_category he
  have hsub : ∀ a ∈ sort_by_category (filter_by_source
      (annotate_entries (consolidate_genes orth s) human_map mouse_map) pat),
      a ∈ annotate_entries (consolidate_genes orth s) human_map mouse_map := by
    intro a ha
    exact List.mem_of_mem_filter
      ((List.perm_insertionSort breakdownOrder _).mem_iff.mp ha)
  refine ⟨?_, hsub⟩
  have hbdperm : (sort_by_category (filter_by_source
      (annotate_entries (consolidate_genes orth s) human_map mouse_map)
      pat)).Perm (filter_by_source
      (annotate_entries (consolidate_genes orth s) human_map mouse_map) pat) :=
    List.perm_insertionSort _ _
  have hbdcat := fun a ha => hcat a (hsub a ha)
  have hsum := four_counts_sum _ hbdcat
  have hstats : ((add_category_stats (sort_by_category (filter_by_source
        (annotate_entries (consolidate_genes orth s) human_map mouse_map)
        pat))).filter (fun cn => decide (¬ cn.1 = "Total"))).map Prod.snd =
      [((sort_by_category (filter_by_source (annotate_entries
          (consolidate_genes orth s) human_map mouse_map) pat)).filter
            (fun a => decide (a.category = "Pro-apoptotic"))).length,
       ((sort_by_category (filter_by_source (annotate_entries
          (consolidate_genes orth s) human_map mouse_map) pat)).filter
            (fun a => decide (a.category = "Anti-apoptotic"))).length,
       ((sort_by_category (filter_by_source (annotate_entries
          (consolidate_genes orth s) human_map mouse_map) pat)).filter
            (fun a => decide (a.category = "Ambiguous"))).length,
       ((sort_by_category (filter_by_source (annotate_entries
          (consolidate_genes orth s) human_map mouse_map) pat)).filter
            (fun a => decide (a.category = "Unspecified"))).length] := by
    simp [add_category_stats, CATEGORY_ORDER]
  rw [hstats]
  simp only [List.sum_cons, List.sum_nil]
  rw [hsum]
  exact hbdperm.length_eq

/-- Witness for C9 at a one-gene KEGG input. -/
theorem source_breakdown_consistency_witness :
    (((add_category_stats (sort_by_category (filter_by_source
            (annotate_entries (consolidate_genes ⟨fun _ => [], fun _ => none⟩
                ⟨[], [], [], [], ["TP53"], [], []⟩)
              (fun _ => none) (fun _ => none))
            "KEGG"))).filter
          (fun cn => decide (¬ cn.1 = "Total"))).map Prod.snd).sum =
      (filter_by_source
        (annotate_entries (consolidate_genes ⟨fun _ => [], fun _ => none⟩
            ⟨[], [], [], [], ["TP53"], [], []⟩)
          (fun _ => none) (fun _ => none))
        "KEGG").length ∧
    ∀ a ∈ sort_by_category (filter_by_source
        (annotate_entries (consolidate_genes ⟨fun _ => [], fun _ => none⟩
            ⟨[], [], [], [], ["TP53"], [], []⟩)
          (fun _ => none) (fun _ => none)) "KEGG"),
      a ∈ annotate_entries (consolidate_genes ⟨fun _ => [], fun _ => none⟩
          ⟨[], [], [], [], ["TP53"], [], []⟩)
        (fun _ => none) (fun _ => none) :=
  source_breakdown_consistency ⟨fun _ => [], fun _ => none⟩
    ⟨[], [], [], [], ["TP53"], [], []⟩ (fun _ => none) (fun _ => none)
    "KEGG" "KEGG" (by decide)

end Apoptotic
